import Mathlib

/-!
A verification development for the entry-data decoder in `src/file/data.rs`
of the `zip` crate.  The Rust code is shallowly embedded: byte buffers become
`List Nat`, the `u16` window offsets become `Nat` with an explicit `% 2 ^ 16`
at the points where the code casts back to `u16`, fallible operations return
`Option` or `Except`, and the external `miniz_oxide` incremental inflate step
is an abstract stepping model constrained only by the bounds its interface
guarantees (it writes into the output buffer starting at the given offset and
never past the end, and consumes at most the input it was given).
-/

namespace ZipData

/-- Fixed capacity of the inflate window: `struct InflateBuffer([u8; 32 * 1024])`. -/
def capacity : Nat := 32 * 1024

/-! ## The Stored variant

`ReaderImpl::Stored { disk, remaining }` reads with
`let n = disk.take(*remaining).read(buf)?; *remaining -= n as u64; Ok(n)`.
The underlying handle is modelled as the list of bytes it will deliver, with
the deterministic behavior of delivering as many of the requested bytes as it
has: a `read` into a buffer of size `bufLen` through the `take(remaining)`
adaptor delivers `min (min remaining bufLen) available` bytes from the front.
-/

/-- One `read` call of the Stored variant: returns (bytes delivered to the
caller, rest of the handle, new `remaining`).  The count returned by the Rust
call is the length of the first component. -/
def storedRead (disk : List Nat) (remaining bufLen : Nat) :
    List Nat × List Nat × Nat :=
  let n := min (min remaining bufLen) disk.length
  (disk.take n, disk.drop n, remaining - n)

/-- Iterate `storedRead` over a list of caller buffer sizes, concatenating the
delivered bytes: returns (all bytes delivered, final handle, final remaining). -/
def storedRun (disk : List Nat) (remaining : Nat) :
    List Nat → List Nat × List Nat × Nat
  | [] => ([], disk, remaining)
  | b :: bs =>
    let r := storedRead disk remaining b
    let rest := storedRun r.2.1 r.2.2 bs
    (r.1 ++ rest.1, rest.2.1, rest.2.2)

lemma storedRun_spec (sizes : List Nat) :
    ∀ (disk : List Nat) (r : Nat), r ≤ disk.length →
      (storedRun disk r sizes).1 = disk.take (min r sizes.sum) ∧
      (storedRun disk r sizes).2.1 = disk.drop (min r sizes.sum) ∧
      (storedRun disk r sizes).2.2 = r - min r sizes.sum := by
  induction sizes with
  | nil => intro disk r _; simp [storedRun]
  | cons b bs ih =>
    intro disk r hr
    have hn : min (min r b) disk.length = min r b := by omega
    have hr' : r - min r b ≤ (disk.drop (min r b)).length := by
      simp [List.length_drop]; omega
    obtain ⟨ih1, ih2, ih3⟩ := ih (disk.drop (min r b)) (r - min r b) hr'
    have hsum : min r (b + bs.sum) = min r b + min (r - min r b) bs.sum := by omega
    refine ⟨?_, ?_, ?_⟩
    · simp only [storedRun, storedRead, hn, ih1, List.sum_cons]
      rw [hsum, List.take_add]
    · simp only [storedRun, storedRead, hn, ih2, List.sum_cons, List.drop_drop]
      congr 1
      omega
    · simp only [storedRun, storedRead, hn, ih3, List.sum_cons]
      omega

lemma length_le_sum (sizes : List Nat) (h : ∀ x ∈ sizes, 1 ≤ x) :
    sizes.length ≤ sizes.sum := by
  induction sizes with
  | nil => simp
  | cons b bs ih =>
    have hb : 1 ≤ b := h b (by simp)
    have := ih (fun x hx => h x (by simp [hx]))
    simp only [List.length_cons, List.sum_cons]
    omega

/-- C1: a Stored `read(buf)` delivers up to `min(remaining, buf.len())` bytes
taken directly from the front of the underlying handle, decrements `remaining`
by exactly the number of bytes delivered and returns that count; and for an
entry of declared length `L` whose handle holds at least the `L` payload bytes,
any run of reads whose buffer sizes are all positive and at least `L` in number
delivers exactly the first `L` bytes, leaves `remaining` at `0`, and a further
read then returns `0`. -/
theorem stored_read_spec (disk d : List Nat) (L r b : Nat) (sizes : List Nat)
    (hL : L ≤ disk.length) (h1 : ∀ x ∈ sizes, 1 ≤ x) (hn : L ≤ sizes.length) :
    (storedRead d r b).1 = d.take (min (min r b) d.length) ∧
    (storedRead d r b).1.length ≤ min r b ∧
    (storedRead d r b).2.1 = d.drop (storedRead d r b).1.length ∧
    (storedRead d r b).2.2 = r - (storedRead d r b).1.length ∧
    (storedRun disk L sizes).1 = disk.take L ∧
    (storedRun disk L sizes).2.2 = 0 ∧
    (storedRead (storedRun disk L sizes).2.1 (storedRun disk L sizes).2.2 b).1.length = 0 := by
  have hsum : L ≤ sizes.sum := le_trans hn (length_le_sum sizes h1)
  have hminL : min L sizes.sum = L := by omega
  obtain ⟨h1', h2', h3'⟩ := storedRun_spec sizes disk L hL
  have hlen : (storedRead d r b).1.length = min (min r b) d.length := by
    simp [storedRead]
  refine ⟨rfl, ?_, ?_, ?_, ?_, ?_, ?_⟩
  · rw [hlen]; omega
  · rw [hlen]; rfl
  · rw [hlen]; rfl
  · rw [h1', hminL]
  · rw [h3', hminL]; omega
  · rw [h3', hminL]
    simp [storedRead]

/-- Witness for `stored_read_spec` at a concrete entry: payload `[1, 2, 3]` of
declared length 3, read with buffer sizes `[2, 2, 2]`. -/
theorem stored_read_spec_witness :
    (storedRead [5, 6] 1 9).1 = [5, 6].take (min (min 1 9) [5, 6].length) ∧
    (storedRead [5, 6] 1 9).1.length ≤ min 1 9 ∧
    (storedRead [5, 6] 1 9).2.1 = [5, 6].drop (storedRead [5, 6] 1 9).1.length ∧
    (storedRead [5, 6] 1 9).2.2 = 1 - (storedRead [5, 6] 1 9).1.length ∧
    (storedRun [1, 2, 3] 3 [2, 2, 2]).1 = [1, 2, 3].take 3 ∧
    (storedRun [1, 2, 3] 3 [2, 2, 2]).2.2 = 0 ∧
    (storedRead (storedRun [1, 2, 3] 3 [2, 2, 2]).2.1
      (storedRun [1, 2, 3] 3 [2, 2, 2]).2.2 9).1.length = 0 :=
  stored_read_spec [1, 2, 3] [5, 6] 3 1 9 [2, 2, 2] (by decide) (by decide) (by decide)

/-! ## The Deflate variant

`ReaderImpl::Deflate { disk, remaining, decompressor, out_pos, read_cursor }`
drains a 32 KiB window buffer that an incremental inflate step refills.  The
external `miniz_oxide::inflate::core::decompress` call is modelled by an
abstract `InflateModel`: a step function over an opaque internal state `σ`
(the `DecompressorOxide`) that, given the peeked input bytes, the window
buffer and the output offset, reports how many input bytes it consumed, how
many output bytes it wrote, and the updated window buffer.  `InflateModel.WF`
records exactly the bounds the `decompress` interface guarantees: it writes
only between the given offset and the end of the buffer, keeps the buffer
length fixed, and consumes at most the input it saw.

The `BufRead` input handle is modelled as the list of compressed bytes still
buffered: `fill_buf` peeks all of them, `consume n` drops the first `n`.
-/

/-- Result of one incremental inflate step. -/
structure InflateResult (σ : Type) where
  state : σ
  consumed : Nat
  written : Nat
  outBuf : List Nat

/-- Abstract model of `miniz_oxide::inflate::core::decompress` (with the flags
argument fixed to `0`, as in the source). -/
structure InflateModel (σ : Type) where
  step : σ → List Nat → List Nat → Nat → InflateResult σ

/-- The bounds the `decompress` interface guarantees: starting at offset `pos`
it writes at most `buf.length - pos` bytes, never resizes the window, and
consumes at most the input it was shown. -/
def InflateModel.WF {σ : Type} (m : InflateModel σ) : Prop :=
  ∀ st data buf pos, pos ≤ buf.length →
    (m.step st data buf pos).written ≤ buf.length - pos ∧
    (m.step st data buf pos).outBuf.length = buf.length ∧
    (m.step st data buf pos).consumed ≤ data.length

/-- The mutable state of a Deflate-variant reader: the buffered compressed
input, the untouched `remaining` field, the borrowed decompressor state and
window buffer, and the two `u16` window offsets. -/
structure DeflateState (σ : Type) where
  disk : List Nat
  remaining : Nat
  oxide : σ
  backbuf : List Nat
  outPos : Nat
  readCursor : Nat

/-- The quantities produced by the (possible) refill half of a Deflate `read`:
the new value of the local `out`, the remaining buffered input, and the
decompressor state and window buffer after the step. -/
structure RefillResult (σ : Type) where
  out : Nat
  disk : List Nat
  oxide : σ
  backbuf : List Nat

/-- The refill half of the Deflate `read`: when `read_cursor == out_pos`, peek
the buffered input (`fill_buf`), reset `out` to `0` if it equals
`backbuf.len()`, run one inflate step at `out`, advance `out` by the bytes
written and drop the consumed input bytes; otherwise leave everything as is. -/
def refillStep {σ : Type} (m : InflateModel σ) (s : DeflateState σ) :
    RefillResult σ :=
  if s.readCursor = s.outPos then
    let pos := if s.outPos = s.backbuf.length then 0 else s.outPos
    let r := m.step s.oxide s.disk s.backbuf pos
    ⟨pos + r.written, s.disk.drop r.consumed, r.state, r.outBuf⟩
  else ⟨s.outPos, s.disk, s.oxide, s.backbuf⟩

/-- The narrowing cast `as u16` applied when the code stores the local `out`
and `cursor + len` back into the `u16` fields. -/
def u16 (n : Nat) : Nat := n % 65536

/-- One `read` call of the Deflate variant, following the source line by line:
refill when `read_cursor == out_pos`, normalize `cursor` to `0` when it equals
`backbuf.len()`, compute `len = out.checked_sub(cursor).unwrap().min(buf.len())`
(`none` models the `unwrap` panicking on underflow), copy
`backbuf[cursor..][..len]` into `buf[..len]` (`none` models an out-of-bounds
slice panics), and store the offsets back through the `u16` casts.  Returns the
bytes copied into the caller's buffer and the new state; the count the Rust
call returns is the length of the copied bytes. -/
def deflateRead {σ : Type} (m : InflateModel σ) (s : DeflateState σ)
    (bufLen : Nat) : Option (List Nat × DeflateState σ) :=
  let r := refillStep m s
  let cursor := if s.readCursor = r.backbuf.length then 0 else s.readCursor
  if cursor ≤ r.out then
    let len := min (r.out - cursor) bufLen
    if cursor + len ≤ r.backbuf.length then
      some ((r.backbuf.drop cursor).take len,
        ⟨r.disk, s.remaining, r.oxide, r.backbuf, u16 r.out, u16 (cursor + len)⟩)
    else none
  else none

/-- The states a Deflate reader can be in: the initial state built by
`ReaderBuilder::new` has `out_pos = 0` and `read_cursor = 0` and a window of
the fixed capacity, and every further state arises from a successful `read`. -/
inductive Reachable {σ : Type} (m : InflateModel σ) : DeflateState σ → Prop where
  | init (disk : List Nat) (rem : Nat) (ox : σ) (buf : List Nat)
      (h : buf.length = capacity) : Reachable m ⟨disk, rem, ox, buf, 0, 0⟩
  | step {s : DeflateState σ} (bufLen : Nat) {bytes : List Nat}
      {s' : DeflateState σ} (hs : Reachable m s)
      (h : deflateRead m s bufLen = some (bytes, s')) : Reachable m s'

/-- The state invariant of the Deflate reader. -/
def Inv {σ : Type} (s : DeflateState σ) : Prop :=
  s.readCursor ≤ s.outPos ∧ s.outPos ≤ capacity ∧ s.backbuf.length = capacity

lemma refill_inv {σ : Type} (m : InflateModel σ) (s : DeflateState σ)
    (hm : m.WF) (hs : Inv s) :
    (if s.readCursor = (refillStep m s).backbuf.length then 0 else s.readCursor) ≤
      (refillStep m s).out ∧
    (refillStep m s).out ≤ capacity ∧
    (refillStep m s).backbuf.length = capacity := by
  obtain ⟨h1, h2, h3⟩ := hs
  by_cases hc : s.readCursor = s.outPos
  · have hpos : (if s.outPos = s.backbuf.length then 0 else s.outPos) ≤ s.backbuf.length := by
      split <;> omega
    obtain ⟨hw, hlen, _⟩ :=
      hm s.oxide s.disk s.backbuf (if s.outPos = s.backbuf.length then 0 else s.outPos) hpos
    have hr : refillStep m s =
        ⟨(if s.outPos = s.backbuf.length then 0 else s.outPos) +
            (m.step s.oxide s.disk s.backbuf
              (if s.outPos = s.backbuf.length then 0 else s.outPos)).written,
          s.disk.drop (m.step s.oxide s.disk s.backbuf
            (if s.outPos = s.backbuf.length then 0 else s.outPos)).consumed,
          (m.step s.oxide s.disk s.backbuf
            (if s.outPos = s.backbuf.length then 0 else s.outPos)).state,
          (m.step s.oxide s.disk s.backbuf
            (if s.outPos = s.backbuf.length then 0 else s.outPos)).outBuf⟩ := by
      rw [refillStep, if_pos hc]
    rw [hr]
    dsimp only
    refine ⟨?_, by omega, by omega⟩
    by_cases hrc : s.readCursor =
        (m.step s.oxide s.disk s.backbuf
          (if s.outPos = s.backbuf.length then 0 else s.outPos)).outBuf.length
    · simp only [if_pos hrc]
      omega
    · simp only [if_neg hrc]
      have : ¬ s.outPos = s.backbuf.length := by omega
      simp only [if_neg this] at hw ⊢
      omega
  · have hr : refillStep m s = ⟨s.outPos, s.disk, s.oxide, s.backbuf⟩ := by
      rw [refillStep, if_neg hc]
    rw [hr]
    dsimp only
    refine ⟨?_, h2, h3⟩
    by_cases hrc : s.readCursor = s.backbuf.length
    · simp only [if_pos hrc]; omega
    · simp only [if_neg hrc]; omega

lemma deflateRead_eq {σ : Type} (m : InflateModel σ) (s : DeflateState σ)
    (bufLen : Nat) (hm : m.WF) (hs : Inv s) :
    deflateRead m s bufLen =
      some (((refillStep m s).backbuf.drop
          (if s.readCursor = capacity then 0 else s.readCursor)).take
          (min ((refillStep m s).out -
            (if s.readCursor = capacity then 0 else s.readCursor)) bufLen),
        ⟨(refillStep m s).disk, s.remaining, (refillStep m s).oxide,
          (refillStep m s).backbuf, (refillStep m s).out,
          (if s.readCursor = capacity then 0 else s.readCursor) +
            min ((refillStep m s).out -
              (if s.readCursor = capacity then 0 else s.readCursor)) bufLen⟩) := by
  obtain ⟨hcur, hout, hlen⟩ := refill_inv m s hm hs
  rw [hlen] at hcur
  have hcap : capacity < 65536 := by norm_num [capacity]
  have hclen : (if s.readCursor = capacity then 0 else s.readCursor) +
      min ((refillStep m s).out -
        (if s.readCursor = capacity then 0 else s.readCursor)) bufLen ≤ capacity := by
    omega
  rw [deflateRead]
  simp only [hlen]
  rw [if_pos hcur, if_pos hclen]
  have hu1 : u16 (refillStep m s).out = (refillStep m s).out :=
    Nat.mod_eq_of_lt (by omega)
  have hu2 : u16 ((if s.readCursor = capacity then 0 else s.readCursor) +
      min ((refillStep m s).out -
        (if s.readCursor = capacity then 0 else s.readCursor)) bufLen) =
      (if s.readCursor = capacity then 0 else s.readCursor) +
        min ((refillStep m s).out -
          (if s.readCursor = capacity then 0 else s.readCursor)) bufLen :=
    Nat.mod_eq_of_lt (by omega)
  rw [hu1, hu2]

lemma inv_step {σ : Type} (m : InflateModel σ) (s : DeflateState σ)
    (bufLen : Nat) (bytes : List Nat) (s' : DeflateState σ)
    (hm : m.WF) (hs : Inv s)
    (h : deflateRead m s bufLen = some (bytes, s')) : Inv s' := by
  rw [deflateRead_eq m s bufLen hm hs] at h
  obtain ⟨hcur, hout, hlen⟩ := refill_inv m s hm hs
  rw [hlen] at hcur
  have h' := Option.some.inj h
  have h2 : s' = ⟨(refillStep m s).disk, s.remaining, (refillStep m s).oxide,
      (refillStep m s).backbuf, (refillStep m s).out,
      (if s.readCursor = capacity then 0 else s.readCursor) +
        min ((refillStep m s).out -
          (if s.readCursor = capacity then 0 else s.readCursor)) bufLen⟩ :=
    (congrArg Prod.snd h').symm
  subst h2
  refine ⟨?_, ?_, ?_⟩ <;> dsimp only
  · omega
  · omega
  · exact hlen

lemma reachable_inv {σ : Type} (m : InflateModel σ) (s : DeflateState σ)
    (hm : m.WF) (hs : Reachable m s) : Inv s := by
  induction hs with
  | init disk rem ox buf h => exact ⟨Nat.le_refl 0, Nat.zero_le _, h⟩
  | step bufLen hs h ih => exact inv_step m _ _ _ _ hm ih h

/-- C2: in every state reachable by reads from the initial Deflate state
(`out_pos = 0`, `read_cursor = 0`), both offsets lie in `[0, 32768]` and
`read_cursor` never exceeds `out_pos`; a `read` call preserves the invariant. -/
theorem deflate_state_invariant {σ : Type} (m : InflateModel σ)
    (s : DeflateState σ) (bufLen : Nat) (bytes : List Nat) (s' : DeflateState σ)
    (hm : m.WF) (hs : Reachable m s)
    (h : deflateRead m s bufLen = some (bytes, s')) :
    (s.readCursor ≤ s.outPos ∧ s.outPos ≤ capacity) ∧
    (s'.readCursor ≤ s'.outPos ∧ s'.outPos ≤ capacity) := by
  have hi := reachable_inv m s hm hs
  have hi' := inv_step m s bufLen bytes s' hm hi h
  exact ⟨⟨hi.1, hi.2.1⟩, hi'.1, hi'.2.1⟩

/-- C3: a Deflate `read` refills exactly when `read_cursor == out_pos` at
entry; the refill resets the write offset to `0` when `out_pos` equals the
capacity, runs one inflate step on the peeked input at that offset, advances
`out_pos` by the bytes written and consumes exactly the bytes the step
consumed from the buffered input — and these refill results are what the
returned reader state carries. -/
theorem deflate_refill_spec {σ : Type} (m : InflateModel σ)
    (s : DeflateState σ) (bufLen : Nat) (hm : m.WF) (hs : Inv s) :
    refillStep m s =
      (if s.readCursor = s.outPos then
        RefillResult.mk
          ((if s.outPos = capacity then 0 else s.outPos) +
            (m.step s.oxide s.disk s.backbuf
              (if s.outPos = capacity then 0 else s.outPos)).written)
          (s.disk.drop (m.step s.oxide s.disk s.backbuf
            (if s.outPos = capacity then 0 else s.outPos)).consumed)
          ((m.step s.oxide s.disk s.backbuf
            (if s.outPos = capacity then 0 else s.outPos)).state)
          ((m.step s.oxide s.disk s.backbuf
            (if s.outPos = capacity then 0 else s.outPos)).outBuf)
      else RefillResult.mk s.outPos s.disk s.oxide s.backbuf) ∧
    deflateRead m s bufLen =
      some (((refillStep m s).backbuf.drop
          (if s.readCursor = capacity then 0 else s.readCursor)).take
          (min ((refillStep m s).out -
            (if s.readCursor = capacity then 0 else s.readCursor)) bufLen),
        ⟨(refillStep m s).disk, s.remaining, (refillStep m s).oxide,
          (refillStep m s).backbuf, (refillStep m s).out,
          (if s.readCursor = capacity then 0 else s.readCursor) +
            min ((refillStep m s).out -
              (if s.readCursor = capacity then 0 else s.readCursor)) bufLen⟩) := by
  refine ⟨?_, deflateRead_eq m s bufLen hm hs⟩
  simp only [refillStep, hs.2.2]

/-- C4: after the possible refill and after normalizing `read_cursor` to `0`
when it equals the capacity, a Deflate `read` copies exactly
`min(out_pos - read_cursor, buf.len())` bytes out of the window buffer
starting at the cursor, advances the cursor by that amount, and returns that
amount. -/
theorem deflate_drain_spec {σ : Type} (m : InflateModel σ)
    (s : DeflateState σ) (bufLen : Nat) (hm : m.WF) (hs : Inv s) :
    deflateRead m s bufLen =
      some (((refillStep m s).backbuf.drop
          (if s.readCursor = capacity then 0 else s.readCursor)).take
          (min ((refillStep m s).out -
            (if s.readCursor = capacity then 0 else s.readCursor)) bufLen),
        ⟨(refillStep m s).disk, s.remaining, (refillStep m s).oxide,
          (refillStep m s).backbuf, (refillStep m s).out,
          (if s.readCursor = capacity then 0 else s.readCursor) +
            min ((refillStep m s).out -
              (if s.readCursor = capacity then 0 else s.readCursor)) bufLen⟩) ∧
    (((refillStep m s).backbuf.drop
        (if s.readCursor = capacity then 0 else s.readCursor)).take
        (min ((refillStep m s).out -
          (if s.readCursor = capacity then 0 else s.readCursor)) bufLen)).length =
      min ((refillStep m s).out -
        (if s.readCursor = capacity then 0 else s.readCursor)) bufLen ∧
    min ((refillStep m s).out -
      (if s.readCursor = capacity then 0 else s.readCursor)) bufLen ≤ bufLen := by
  obtain ⟨hcur, hout, hlen⟩ := refill_inv m s hm hs
  rw [hlen] at hcur
  refine ⟨deflateRead_eq m s bufLen hm hs, ?_, by omega⟩
  simp only [List.length_take, List.length_drop, hlen]
  omega

lemma deflateRead_remaining {σ : Type} (m : InflateModel σ) (d : List Nat)
    (r1 r2 : Nat) (o : σ) (bb : List Nat) (op rc bufLen : Nat) :
    deflateRead m ⟨d, r2, o, bb, op, rc⟩ bufLen =
      (deflateRead m ⟨d, r1, o, bb, op, rc⟩ bufLen).map
        (fun p => (p.1, ⟨p.2.disk, r2, p.2.oxide, p.2.backbuf,
          p.2.outPos, p.2.readCursor⟩)) := by
  have hrf : refillStep m ⟨d, r2, o, bb, op, rc⟩ =
      refillStep m ⟨d, r1, o, bb, op, rc⟩ := rfl
  simp only [deflateRead, hrf]
  split_ifs with h1 h2 <;> simp

lemma deflateRead_remaining_eq {σ : Type} (m : InflateModel σ)
    (s : DeflateState σ) (bufLen : Nat) (bytes : List Nat) (s' : DeflateState σ)
    (h : deflateRead m s bufLen = some (bytes, s')) :
    s'.remaining = s.remaining := by
  simp only [deflateRead] at h
  split_ifs at h <;>
    first
      | exact Option.noConfusion h
      | exact (congrArg (fun p => p.2.remaining) (Option.some.inj h)).symm

/-- C9: a Deflate `read` neither consults nor modifies the `remaining` field:
the field survives every read unchanged, and changing it changes nothing else
about the read's result. -/
theorem deflate_remaining_untouched {σ : Type} (m : InflateModel σ)
    (s : DeflateState σ) (bufLen rem : Nat) (bytes : List Nat)
    (s' : DeflateState σ)
    (h : deflateRead m s bufLen = some (bytes, s')) :
    s'.remaining = s.remaining ∧
    deflateRead m ⟨s.disk, rem, s.oxide, s.backbuf, s.outPos, s.readCursor⟩
        bufLen =
      some (bytes, ⟨s'.disk, rem, s'.oxide, s'.backbuf, s'.outPos,
        s'.readCursor⟩) := by
  refine ⟨deflateRead_remaining_eq m s bufLen bytes s' h, ?_⟩
  obtain ⟨d, r0, o, bb, op, rc⟩ := s
  rw [deflateRead_remaining m d r0 rem o bb op rc bufLen, h]
  simp

/-- C10: from any reachable Deflate state, a `read` call cannot panic: the
`checked_sub` never underflows, the slices `backbuf[cursor..][..len]` and
`buf[..len]` are in bounds, and the values written back through the `u16`
casts are at most `32768`, so the casts do not truncate. -/
theorem deflate_read_no_panic {σ : Type} (m : InflateModel σ)
    (s : DeflateState σ) (bufLen : Nat) (hm : m.WF) (hs : Reachable m s) :
    (deflateRead m s bufLen).isSome = true ∧
    (if s.readCursor = (refillStep m s).backbuf.length then 0
      else s.readCursor) ≤ (refillStep m s).out ∧
    (if s.readCursor = (refillStep m s).backbuf.length then 0
      else s.readCursor) +
      min ((refillStep m s).out -
        (if s.readCursor = (refillStep m s).backbuf.length then 0
          else s.readCursor)) bufLen ≤ (refillStep m s).backbuf.length ∧
    min ((refillStep m s).out -
      (if s.readCursor = (refillStep m s).backbuf.length then 0
        else s.readCursor)) bufLen ≤ bufLen ∧
    (refillStep m s).out ≤ 32768 ∧
    (if s.readCursor = (refillStep m s).backbuf.length then 0
      else s.readCursor) +
      min ((refillStep m s).out -
        (if s.readCursor = (refillStep m s).backbuf.length then 0
          else s.readCursor)) bufLen ≤ 32768 := by
  have hi := reachable_inv m s hm hs
  obtain ⟨hcur, hout, hlen⟩ := refill_inv m s hm hi
  have hcap : capacity = 32768 := by norm_num [capacity]
  refine ⟨?_, hcur, ?_, by omega, by omega, ?_⟩
  · rw [deflateRead_eq m s bufLen hm hi]
    rfl
  · rw [hlen] at hcur ⊢
    omega
  · rw [hlen] at hcur ⊢
    omega

/-- C5 (amended): with a nonempty caller buffer, a Deflate `read` returns `0`
exactly when `read_cursor == out_pos` held at entry and the inflate step wrote
zero bytes; the length of the peeked input chunk is not consulted. -/
theorem deflate_eof_condition {σ : Type} (m : InflateModel σ)
    (s : DeflateState σ) (bufLen : Nat) (bytes : List Nat) (s' : DeflateState σ)
    (hm : m.WF) (hs : Inv s) (hb : 1 ≤ bufLen)
    (h : deflateRead m s bufLen = some (bytes, s')) :
    bytes.length = 0 ↔
      s.readCursor = s.outPos ∧
        (m.step s.oxide s.disk s.backbuf
          (if s.outPos = capacity then 0 else s.outPos)).written = 0 := by
  obtain ⟨hc1, hc2, hc3⟩ := hs
  obtain ⟨hcur, hout, hlen⟩ := refill_inv m s hm ⟨hc1, hc2, hc3⟩
  rw [hlen] at hcur
  rw [deflateRead_eq m s bufLen hm ⟨hc1, hc2, hc3⟩] at h
  have hbytes : bytes = ((refillStep m s).backbuf.drop
      (if s.readCursor = capacity then 0 else s.readCursor)).take
      (min ((refillStep m s).out -
        (if s.readCursor = capacity then 0 else s.readCursor)) bufLen) :=
    (congrArg Prod.fst (Option.some.inj h)).symm
  have hblen : bytes.length = min ((refillStep m s).out -
      (if s.readCursor = capacity then 0 else s.readCursor)) bufLen := by
    rw [hbytes]
    simp only [List.length_take, List.length_drop, hlen]
    omega
  rw [hblen]
  by_cases hc : s.readCursor = s.outPos
  · have hr : refillStep m s =
        ⟨(if s.outPos = s.backbuf.length then 0 else s.outPos) +
            (m.step s.oxide s.disk s.backbuf
              (if s.outPos = s.backbuf.length then 0 else s.outPos)).written,
          s.disk.drop (m.step s.oxide s.disk s.backbuf
            (if s.outPos = s.backbuf.length then 0 else s.outPos)).consumed,
          (m.step s.oxide s.disk s.backbuf
            (if s.outPos = s.backbuf.length then 0 else s.outPos)).state,
          (m.step s.oxide s.disk s.backbuf
            (if s.outPos = s.backbuf.length then 0 else s.outPos)).outBuf⟩ := by
      rw [refillStep, if_pos hc]
    rw [hr, hc3]
    dsimp only
    by_cases hpc : s.outPos = capacity
    · have hrcc : s.readCursor = capacity := by omega
      simp only [if_pos hpc, if_pos hrcc]
      constructor
      · intro h0
        exact ⟨hc, by omega⟩
      · intro h0
        omega
    · have hrcc : ¬ s.readCursor = capacity := by omega
      simp only [if_neg hpc, if_neg hrcc]
      constructor
      · intro h0
        exact ⟨hc, by omega⟩
      · intro h0
        omega
  · have hr : refillStep m s = ⟨s.outPos, s.disk, s.oxide, s.backbuf⟩ := by
      rw [refillStep, if_neg hc]
    have hrcc : ¬ s.readCursor = capacity := by omega
    rw [hr]
    dsimp only
    simp only [if_neg hrcc]
    constructor
    · intro h0
      omega
    · intro h0
      exact absurd h0.1 hc

/-! ### Concrete instances

`mW`/`sW`: a well-formed inflate model that writes nothing, with the initial
reader state, used to exhibit the theorems above at concrete inputs.
`mC5`/`sC5`: an inflate model that consumes one input byte and writes five
window bytes per step, at the initial reader state over the one-byte input
`[9]`, used to exhibit a read that returns `0` mid-stream. -/

def mW : InflateModel Nat := ⟨fun st _ buf _ => ⟨st, 0, 0, buf⟩⟩

def sW : DeflateState Nat := ⟨[], 7, 0, List.replicate capacity 0, 0, 0⟩

lemma mW_wf : mW.WF := fun _ _ _ _ _ => ⟨Nat.zero_le _, rfl, Nat.zero_le _⟩

lemma sW_inv : Inv sW := ⟨Nat.le_refl 0, Nat.zero_le _, by simp [sW]⟩

lemma sW_reach : Reachable mW sW := Reachable.init [] 7 0 _ (by simp)

lemma zero_ne_capacity : ¬ ((0 : Nat) = capacity) := by norm_num [capacity]

lemma sW_refill : refillStep mW sW = ⟨0, [], 0, List.replicate capacity 0⟩ := by
  have hnc : ¬ (sW.outPos = sW.backbuf.length) := by
    simp [sW, zero_ne_capacity]
  rw [refillStep, if_pos (show sW.readCursor = sW.outPos from rfl), if_neg hnc]
  simp [mW, sW]

lemma sW_read3 : deflateRead mW sW 3 = some ([], sW) := by
  rw [deflateRead_eq mW sW 3 mW_wf sW_inv, sW_refill]
  simp [sW, zero_ne_capacity]

lemma sW_read1 : deflateRead mW sW 1 = some ([], sW) := by
  rw [deflateRead_eq mW sW 1 mW_wf sW_inv, sW_refill]
  simp [sW, zero_ne_capacity]

def mC5 : InflateModel Nat :=
  ⟨fun st data buf pos => ⟨st, min 1 data.length, min 5 (buf.length - pos), buf⟩⟩

def sC5 : DeflateState Nat := ⟨[9], 11, 0, List.replicate capacity 3, 0, 0⟩

def sC5' : DeflateState Nat := ⟨[], 11, 0, List.replicate capacity 3, 5, 0⟩

lemma five_le_capacity : (5 : Nat) ≤ capacity := by norm_num [capacity]

lemma mC5_wf : mC5.WF := by
  intro st data buf pos hpos
  refine ⟨?_, rfl, ?_⟩ <;> dsimp only [mC5] <;> omega

lemma mC5_step :
    mC5.step 0 [9] (List.replicate capacity 3) 0 =
      ⟨0, 1, 5, List.replicate capacity 3⟩ := by
  show InflateResult.mk (0 : Nat) (min 1 [9].length)
      (min 5 ((List.replicate capacity 3).length - 0))
      (List.replicate capacity 3) = ⟨0, 1, 5, List.replicate capacity 3⟩
  rw [List.length_replicate, Nat.sub_zero, Nat.min_eq_left five_le_capacity]
  rfl

lemma deflateRead_initial {σ : Type} (m : InflateModel σ) (hm : m.WF)
    (d : List Nat) (rem : Nat) (o : σ) (w : List Nat)
    (hw : w.length = capacity) (bufLen : Nat) :
    deflateRead m ⟨d, rem, o, w, 0, 0⟩ bufLen =
      some ((m.step o d w 0).outBuf.take (min (m.step o d w 0).written bufLen),
        ⟨d.drop (m.step o d w 0).consumed, rem, (m.step o d w 0).state,
          (m.step o d w 0).outBuf, (m.step o d w 0).written,
          min (m.step o d w 0).written bufLen⟩) := by
  have hs : Inv ⟨d, rem, o, w, 0, 0⟩ := ⟨Nat.le_refl 0, Nat.zero_le _, hw⟩
  have hnc : ¬ ((⟨d, rem, o, w, 0, 0⟩ : DeflateState σ).outPos =
      (⟨d, rem, o, w, 0, 0⟩ : DeflateState σ).backbuf.length) := by
    dsimp only
    rw [hw]
    exact zero_ne_capacity
  have hrf : refillStep m ⟨d, rem, o, w, 0, 0⟩ =
      ⟨0 + (m.step o d w 0).written, d.drop (m.step o d w 0).consumed,
        (m.step o d w 0).state, (m.step o d w 0).outBuf⟩ := by
    rw [refillStep,
      if_pos (show (⟨d, rem, o, w, 0, 0⟩ : DeflateState σ).readCursor =
        (⟨d, rem, o, w, 0, 0⟩ : DeflateState σ).outPos from rfl),
      if_neg hnc]
  rw [deflateRead_eq m ⟨d, rem, o, w, 0, 0⟩ bufLen hm hs, hrf]
  dsimp only
  rw [if_neg zero_ne_capacity]
  simp only [List.drop_zero, Nat.zero_add, Nat.sub_zero]

lemma deflateRead_noRefill {σ : Type} (m : InflateModel σ) (hm : m.WF)
    (d : List Nat) (rem : Nat) (o : σ) (w : List Nat)
    (hw : w.length = capacity) (op rc : Nat) (hlt : rc < op)
    (hop : op ≤ capacity) (bufLen : Nat) :
    deflateRead m ⟨d, rem, o, w, op, rc⟩ bufLen =
      some ((w.drop rc).take (min (op - rc) bufLen),
        ⟨d, rem, o, w, op, rc + min (op - rc) bufLen⟩) := by
  have hs : Inv ⟨d, rem, o, w, op, rc⟩ := ⟨Nat.le_of_lt hlt, hop, hw⟩
  have hne : ¬ ((⟨d, rem, o, w, op, rc⟩ : DeflateState σ).readCursor =
      (⟨d, rem, o, w, op, rc⟩ : DeflateState σ).outPos) := by
    dsimp only
    omega
  have hrf : refillStep m ⟨d, rem, o, w, op, rc⟩ = ⟨op, d, o, w⟩ := by
    rw [refillStep, if_neg hne]
  rw [deflateRead_eq m ⟨d, rem, o, w, op, rc⟩ bufLen hm hs, hrf]
  dsimp only
  rw [if_neg (show ¬ (rc = capacity) from by omega)]

lemma sC5_read0 : deflateRead mC5 sC5 0 = some ([], sC5') := by
  show deflateRead mC5 ⟨[9], 11, 0, List.replicate capacity 3, 0, 0⟩ 0 =
    some ([], sC5')
  rw [deflateRead_initial mC5 mC5_wf [9] 11 0 (List.replicate capacity 3)
    (by rw [List.length_replicate]) 0, mC5_step]
  dsimp only
  rw [Nat.min_zero, List.take_zero]
  rfl

lemma sC5'_read1 :
    deflateRead mC5 sC5' 1 =
      some ([3], ⟨[], 11, 0, List.replicate capacity 3, 5, 1⟩) := by
  show deflateRead mC5 ⟨[], 11, 0, List.replicate capacity 3, 5, 0⟩ 1 =
    some ([3], ⟨[], 11, 0, List.replicate capacity 3, 5, 1⟩)
  rw [deflateRead_noRefill mC5 mC5_wf [] 11 0 (List.replicate capacity 3)
    (by rw [List.length_replicate]) 5 0 (by omega) five_le_capacity 1]
  rw [show min (5 - 0) 1 = 1 from by omega, List.drop_zero, List.take_replicate,
    show min 1 capacity = 1 from Nat.min_eq_left (by norm_num [capacity]),
    List.replicate_one]

/-- C5 (counterexample): at the reachable initial state `sC5` over a nonempty
compressed input, a `read` with an empty caller buffer performs a refill whose
peeked chunk is nonempty (`[9]`) and whose inflate step writes `5` bytes, yet
the call returns `0` — and the very next read delivers a byte, so decompressed
bytes remained obtainable.  This refutes both directions of the claim's
"returns 0 exactly when the chunk has length 0 and the step wrote nothing". -/
theorem deflate_eof_cex :
    mC5.WF ∧ Reachable mC5 sC5 ∧
    sC5.disk.length ≠ 0 ∧
    (mC5.step sC5.oxide sC5.disk sC5.backbuf 0).written = 5 ∧
    deflateRead mC5 sC5 0 = some ([], sC5') ∧
    deflateRead mC5 sC5' 1 =
      some ([3], ⟨[], 11, 0, List.replicate capacity 3, 5, 1⟩) := by
  refine ⟨mC5_wf, ?_, ?_, ?_, sC5_read0, sC5'_read1⟩
  · have hw : (List.replicate capacity 3).length = capacity :=
      List.length_replicate capacity 3
    show Reachable mC5 ⟨[9], 11, 0, List.replicate capacity 3, 0, 0⟩
    exact Reachable.init [9] 11 0 (List.replicate capacity 3) hw
  · simp [sC5]
  · rw [show sC5.oxide = 0 from rfl, show sC5.disk = [9] from rfl,
      show sC5.backbuf = List.replicate capacity 3 from rfl, mC5_step]

/-! ## The builder: `ReaderBuilder::new` and `seek_to_data`

`ReaderBuilder::new(disk, header, decompressor)` validates `header.method`
against `zip_format::CompressionMethod::STORED` (code 0) and `DEFLATE`
(code 8); the Deflate arm exists only when the `read-deflate` feature is
compiled in, modelled by the `readDeflate` flag.  The external
`miniz_oxide::inflate::core::DecompressorOxide` is modelled by an opaque
state `σ` with its `Default::default()` value (`dflt`) and its
`init` reset; the `Decompressor` wrapper holds the lazily allocated
`Option<Box<(DecompressorOxide, InflateBuffer)>>`, with the fresh
`InflateBuffer::default()` being the all-zero window.  The random-access
storage handle is an in-memory `Disk` (byte list plus cursor); seeks always
succeed in this model and `read_exact` fails exactly when fewer bytes than
requested remain. -/

def STORED : Nat := 0

def DEFLATE : Nat := 8

structure FileHeader where
  method : Nat
  start : Nat
  len : Nat

structure Disk where
  data : List Nat
  pos : Nat

structure OxideModel (σ : Type) where
  dflt : σ
  init : σ → σ

structure Decompressor (σ : Type) where
  deflate : Option (σ × List Nat)

inductive ReaderImpl (σ : Type) where
  | stored (remaining : Nat)
  | deflate (remaining : Nat) (decompressor : σ × List Nat)
      (outPos readCursor : Nat)

structure ReaderBuilder (σ : Type) where
  disk : Disk
  imp : ReaderImpl σ
  start : Nat

inductive MethodNotSupported where
  | mk

/-- `ReaderBuilder::new`: Stored always succeeds; Deflate succeeds only when
the `read-deflate` capability is compiled in, fetching (or lazily allocating)
the shared decompressor and calling `init()` on its inflate state; every other
method fails with `MethodNotSupported`.  The storage handle is only stored,
never touched. -/
def readerBuilderNew {σ : Type} (readDeflate : Bool) (ox : OxideModel σ)
    (disk : Disk) (header : FileHeader) (d : Decompressor σ) :
    Except MethodNotSupported (ReaderBuilder σ × Decompressor σ) :=
  if header.method = STORED then
    .ok (⟨disk, .stored header.len, header.start⟩, d)
  else if readDeflate = true ∧ header.method = DEFLATE then
    let pair0 := d.deflate.getD (ox.dflt, List.replicate capacity 0)
    let pair := (ox.init pair0.1, pair0.2)
    .ok (⟨disk, .deflate header.len pair 0 0, header.start⟩, ⟨some pair⟩)
  else .error .mk

structure LocalHeader where
  nameLen : Nat
  metadataLen : Nat

/-- `size_of::<zip_format::Header>() + 4`: the local-file-header's fixed
fields (26 bytes) plus the 4-byte signature. -/
def localHeaderBytes : Nat := 26 + 4

/-- Modelled from the spec: `zip_format::Header::as_prefix` lives in the
`zip-format` crate, which is not under `src/`.  Per the spec, the fixed-size
record read at `start` must match the recognized local-file-header
signature/layout (the 4-byte signature `PK\x03\x04`) or parsing fails, and
its trailing two fields are `name_len` and `metadata_len`, both little-endian
16-bit lengths (at byte offsets 26 and 28 of the 30-byte record). -/
def headerParse (buf : List Nat) : Option LocalHeader :=
  if buf.length = localHeaderBytes ∧ buf.take 4 = [0x50, 0x4b, 0x03, 0x04] then
    some ⟨buf.getD 26 0 + 256 * buf.getD 27 0,
      buf.getD 28 0 + 256 * buf.getD 29 0⟩
  else none

inductive IOAction where
  | seekStart (n : Nat)
  | seekCur (n : Nat)
  | readExact (n : Nat)

inductive SeekError where
  | notAnArchive
  | ioError

structure Reader (σ : Type) where
  disk : Disk
  imp : ReaderImpl σ

/-- `read_exact` into a buffer of `n` bytes: delivers the `n` bytes at the
cursor and advances it, or fails when fewer than `n` bytes remain. -/
def readBytes (d : Disk) (n : Nat) : Option (List Nat × Disk) :=
  if d.pos + n ≤ d.data.length then
    some ((d.data.drop d.pos).take n, ⟨d.data, d.pos + n⟩)
  else none

/-- `seek_to_data`: seek the storage to `header.start`, `read_exact` the
30-byte prefix, parse it (failing with `NotAnArchive` if it does not parse),
then seek forward by `name_len + metadata_len` and hand the repositioned
handle to the reader.  Returns the result together with the trace of I/O
operations issued on the handle. -/
def seekToData {σ : Type} (b : ReaderBuilder σ) :
    Except SeekError (Reader σ) × List IOAction :=
  match readBytes ⟨b.disk.data, b.start⟩ localHeaderBytes with
  | none => (.error .ioError,
      [.seekStart b.start, .readExact localHeaderBytes])
  | some (buf, d2) =>
    match headerParse buf with
    | none => (.error .notAnArchive,
        [.seekStart b.start, .readExact localHeaderBytes])
    | some hdr =>
      (.ok ⟨⟨d2.data, d2.pos + (hdr.nameLen + hdr.metadataLen)⟩, b.imp⟩,
       [.seekStart b.start, .readExact localHeaderBytes,
        .seekCur (hdr.nameLen + hdr.metadataLen)])

def exceptOk {ε α : Type} : Except ε α → Bool
  | .ok _ => true
  | .error _ => false

/-- C6: `ReaderBuilder::new` always succeeds for Stored; for Deflate it
succeeds exactly when the read-deflate capability is compiled in (acquiring
and initializing the shared decompressor), failing with `MethodNotSupported`
otherwise; every other method fails with `MethodNotSupported`; and the
storage handle is never touched — it is passed through unchanged and the
outcome does not depend on it. -/
theorem builder_new_spec {σ : Type} (readDeflate : Bool) (ox : OxideModel σ)
    (disk disk' : Disk) (h : FileHeader) (d : Decompressor σ) :
    (h.method = STORED →
      readerBuilderNew readDeflate ox disk h d =
        .ok (⟨disk, .stored h.len, h.start⟩, d)) ∧
    (h.method = DEFLATE → readDeflate = true →
      readerBuilderNew readDeflate ox disk h d =
        .ok (⟨disk, .deflate h.len
            (ox.init (d.deflate.getD (ox.dflt, List.replicate capacity 0)).1,
              (d.deflate.getD (ox.dflt, List.replicate capacity 0)).2) 0 0,
            h.start⟩,
          ⟨some (ox.init (d.deflate.getD (ox.dflt, List.replicate capacity 0)).1,
            (d.deflate.getD (ox.dflt, List.replicate capacity 0)).2)⟩)) ∧
    (h.method = DEFLATE → readDeflate = false →
      readerBuilderNew readDeflate ox disk h d = .error .mk) ∧
    (¬ h.method = STORED → ¬ h.method = DEFLATE →
      readerBuilderNew readDeflate ox disk h d = .error .mk) ∧
    exceptOk (readerBuilderNew readDeflate ox disk h d) =
      exceptOk (readerBuilderNew readDeflate ox disk' h d) := by
  have hsd : ¬ (DEFLATE = STORED) := by norm_num [STORED, DEFLATE]
  refine ⟨?_, ?_, ?_, ?_, ?_⟩
  · intro h0
    rw [readerBuilderNew, if_pos h0]
  · intro h8 hT
    rw [readerBuilderNew, if_neg (by rw [h8]; exact hsd), if_pos ⟨hT, h8⟩]
  · intro h8 hF
    rw [readerBuilderNew, if_neg (by rw [h8]; exact hsd),
      if_neg (by rw [hF]; exact fun hc => Bool.noConfusion hc.1)]
  · intro h0 h8
    rw [readerBuilderNew, if_neg h0, if_neg (fun hc => h8 hc.2)]
  · rw [readerBuilderNew, readerBuilderNew]
    split_ifs <;> rfl

/-- Witness for `builder_new_spec`: a Stored header (method code 0) at offset
100 with declared length 11 succeeds and keeps the handle unchanged. -/
theorem builder_new_spec_witness :
    readerBuilderNew true (⟨0, fun s => s + 1⟩ : OxideModel Nat)
        ⟨[1, 2, 3], 0⟩ ⟨0, 100, 11⟩ ⟨none⟩ =
      .ok (⟨⟨[1, 2, 3], 0⟩, .stored 11, 100⟩, (⟨none⟩ : Decompressor Nat)) :=
  (builder_new_spec true ⟨0, fun s => s + 1⟩ ⟨[1, 2, 3], 0⟩ ⟨[], 5⟩
    ⟨0, 100, 11⟩ ⟨none⟩).1 rfl

/-- C7: `seek_to_data` first seeks the storage to `header.start` and reads the
30-byte fixed prefix; a short read is reported as an I/O error; it fails with
`NotAnArchive` exactly when the prefix does not parse, issuing no further I/O
in that case; and on success it seeks forward by `name_len + metadata_len`
and returns the reader positioned at the payload. -/
theorem seek_to_data_spec {σ : Type} (b : ReaderBuilder σ) (buf : List Nat)
    (d2 : Disk) (hdr : LocalHeader) :
    ((seekToData b).2.take 2 =
      [IOAction.seekStart b.start, IOAction.readExact localHeaderBytes]) ∧
    (readBytes ⟨b.disk.data, b.start⟩ localHeaderBytes = none →
      seekToData b = (.error .ioError,
        [.seekStart b.start, .readExact localHeaderBytes])) ∧
    (readBytes ⟨b.disk.data, b.start⟩ localHeaderBytes = some (buf, d2) →
      ((seekToData b).1 = .error .notAnArchive ↔ headerParse buf = none)) ∧
    (readBytes ⟨b.disk.data, b.start⟩ localHeaderBytes = some (buf, d2) →
      headerParse buf = none →
      seekToData b = (.error .notAnArchive,
        [.seekStart b.start, .readExact localHeaderBytes])) ∧
    (readBytes ⟨b.disk.data, b.start⟩ localHeaderBytes = some (buf, d2) →
      headerParse buf = some hdr →
      seekToData b = (.ok ⟨⟨b.disk.data,
          b.start + localHeaderBytes + (hdr.nameLen + hdr.metadataLen)⟩,
          b.imp⟩,
        [.seekStart b.start, .readExact localHeaderBytes,
         .seekCur (hdr.nameLen + hdr.metadataLen)])) := by
  refine ⟨?_, ?_, ?_, ?_, ?_⟩
  · rw [seekToData]
    split
    · rfl
    · split
      · rfl
      · rfl
  · intro hrb
    rw [seekToData, hrb]
  · intro hrb
    rw [seekToData, hrb]
    dsimp only
    cases hp : headerParse buf with
    | none => simp [hp]
    | some hdr0 => simp [hp]
  · intro hrb hp
    rw [seekToData, hrb]
    dsimp only
    rw [hp]
  · intro hrb hp
    rw [seekToData, hrb]
    dsimp only
    rw [hp]
    rw [readBytes] at hrb
    split_ifs at hrb with hle
    have h2 : d2 = ⟨b.disk.data, b.start + localHeaderBytes⟩ :=
      (congrArg Prod.snd (Option.some.inj hrb)).symm
    rw [h2]

/-- Witness for `seek_to_data_spec`: a handle holding a valid local header
(signature, 22 fixed bytes, `name_len = 2`, `metadata_len = 1`) followed by
payload; `seek_to_data` lands the cursor 3 bytes past the 30-byte prefix. -/
theorem seek_to_data_spec_witness :
    seekToData (⟨⟨[0x50, 0x4b, 0x03, 0x04] ++ List.replicate 22 0 ++
        [2, 0, 1, 0] ++ [7, 8, 9], 0⟩, .stored 3, 0⟩ : ReaderBuilder Nat) =
      (.ok ⟨⟨[0x50, 0x4b, 0x03, 0x04] ++ List.replicate 22 0 ++
          [2, 0, 1, 0] ++ [7, 8, 9], 0 + localHeaderBytes + (2 + 1)⟩,
        .stored 3⟩,
       [.seekStart 0, .readExact localHeaderBytes, .seekCur (2 + 1)]) :=
  (seek_to_data_spec (⟨⟨[0x50, 0x4b, 0x03, 0x04] ++ List.replicate 22 0 ++
      [2, 0, 1, 0] ++ [7, 8, 9], 0⟩, .stored 3, 0⟩ : ReaderBuilder Nat)
    (([0x50, 0x4b, 0x03, 0x04] ++ List.replicate 22 0 ++
      [2, 0, 1, 0] ++ [7, 8, 9]).take 30)
    ⟨[0x50, 0x4b, 0x03, 0x04] ++ List.replicate 22 0 ++
      [2, 0, 1, 0] ++ [7, 8, 9], 30⟩
    ⟨2, 1⟩).2.2.2.2 (by rfl) (by rfl)

/-- C8 (counterexample): begin (`ReaderBuilder::new`) on a Deflate header with
an already-allocated decompressor whose window buffer is filled with the byte
`7` leaves the window contents untouched — only `DecompressorOxide::init()`
is called, the `InflateBuffer` is not reset to its default all-zero state.
This refutes the claim's "reinitializes it (window and state reset)". -/
theorem engine_reuse_cex :
    readerBuilderNew true (⟨0, fun _ => 0⟩ : OxideModel Nat) ⟨[], 0⟩
        ⟨8, 0, 0⟩ ⟨some (5, List.replicate capacity 7)⟩ =
      .ok (⟨⟨[], 0⟩, .deflate 0 (0, List.replicate capacity 7) 0 0, 0⟩,
        ⟨some (0, List.replicate capacity 7)⟩) ∧
    ¬ (List.replicate capacity 7 = List.replicate capacity 0) := by
  constructor
  · rfl
  · intro hEq
    have h7 : (7 : Nat) ∈ List.replicate capacity 7 :=
      List.mem_replicate.mpr ⟨by norm_num [capacity], rfl⟩
    rw [hEq] at h7
    have h0 := List.eq_of_mem_replicate h7
    norm_num at h0

/-- C8 (amended): the inflate state is allocated at most once per
`Decompressor` — the first Deflate begin installs the default state with the
default (all-zero) window, and every subsequent Deflate begin reuses the stored
allocation, keeping the window buffer as it is and reinitializing only the
inflate state machine via `init()`; the new reader starts with
`out_pos = read_cursor = 0`. -/
theorem engine_reuse_spec {σ : Type} (ox : OxideModel σ) (disk : Disk)
    (h : FileHeader) (st : σ) (w : List Nat) (hme : h.method = DEFLATE) :
    readerBuilderNew true ox disk h ⟨none⟩ =
      .ok (⟨disk,
          .deflate h.len (ox.init ox.dflt, List.replicate capacity 0) 0 0,
          h.start⟩,
        ⟨some (ox.init ox.dflt, List.replicate capacity 0)⟩) ∧
    readerBuilderNew true ox disk h ⟨some (st, w)⟩ =
      .ok (⟨disk, .deflate h.len (ox.init st, w) 0 0, h.start⟩,
        ⟨some (ox.init st, w)⟩) := by
  have h0 : ¬ (h.method = STORED) := by
    rw [hme]
    norm_num [STORED, DEFLATE]
  constructor <;> (rw [readerBuilderNew, if_neg h0, if_pos ⟨rfl, hme⟩]; rfl)

/-- Witness for `engine_reuse_spec` at a concrete decompressor state `5` and
window `[7, 7]`. -/
theorem engine_reuse_spec_witness :
    readerBuilderNew true (⟨0, fun s => s + 1⟩ : OxideModel Nat)
        ⟨[1, 2, 3], 0⟩ ⟨8, 4, 9⟩ ⟨none⟩ =
      .ok (⟨⟨[1, 2, 3], 0⟩,
          .deflate 9 ((⟨0, fun s => s + 1⟩ : OxideModel Nat).init 0,
            List.replicate capacity 0) 0 0, 4⟩,
        ⟨some ((⟨0, fun s => s + 1⟩ : OxideModel Nat).init 0,
          List.replicate capacity 0)⟩) ∧
    readerBuilderNew true (⟨0, fun s => s + 1⟩ : OxideModel Nat)
        ⟨[1, 2, 3], 0⟩ ⟨8, 4, 9⟩ ⟨some (5, [7, 7])⟩ =
      .ok (⟨⟨[1, 2, 3], 0⟩,
          .deflate 9 ((⟨0, fun s => s + 1⟩ : OxideModel Nat).init 5, [7, 7])
            0 0, 4⟩,
        ⟨some ((⟨0, fun s => s + 1⟩ : OxideModel Nat).init 5, [7, 7])⟩) :=
  engine_reuse_spec ⟨0, fun s => s + 1⟩ ⟨[1, 2, 3], 0⟩ ⟨8, 4, 9⟩ 5 [7, 7] rfl

/-! ### Witnesses for the Deflate-arm theorems -/

/-- Witness for `deflate_state_invariant` at the trivial inflate model and the
initial reader state. -/
theorem deflate_state_invariant_witness :
    (sW.readCursor ≤ sW.outPos ∧ sW.outPos ≤ capacity) ∧
    (sW.readCursor ≤ sW.outPos ∧ sW.outPos ≤ capacity) :=
  deflate_state_invariant mW sW 3 [] sW mW_wf sW_reach sW_read3

/-- Witness for `deflate_refill_spec` at the trivial inflate model and the
initial reader state. -/
theorem deflate_refill_spec_witness :
    refillStep mW sW =
      (if sW.readCursor = sW.outPos then
        RefillResult.mk
          ((if sW.outPos = capacity then 0 else sW.outPos) +
            (mW.step sW.oxide sW.disk sW.backbuf
              (if sW.outPos = capacity then 0 else sW.outPos)).written)
          (sW.disk.drop (mW.step sW.oxide sW.disk sW.backbuf
            (if sW.outPos = capacity then 0 else sW.outPos)).consumed)
          ((mW.step sW.oxide sW.disk sW.backbuf
            (if sW.outPos = capacity then 0 else sW.outPos)).state)
          ((mW.step sW.oxide sW.disk sW.backbuf
            (if sW.outPos = capacity then 0 else sW.outPos)).outBuf)
      else RefillResult.mk sW.outPos sW.disk sW.oxide sW.backbuf) :=
  (deflate_refill_spec mW sW 3 mW_wf sW_inv).1

/-- Witness for `deflate_drain_spec` at the trivial inflate model and the
initial reader state with a 3-byte caller buffer. -/
theorem deflate_drain_spec_witness :
    (((refillStep mW sW).backbuf.drop
        (if sW.readCursor = capacity then 0 else sW.readCursor)).take
        (min ((refillStep mW sW).out -
          (if sW.readCursor = capacity then 0 else sW.readCursor)) 3)).length =
      min ((refillStep mW sW).out -
        (if sW.readCursor = capacity then 0 else sW.readCursor)) 3 :=
  (deflate_drain_spec mW sW 3 mW_wf sW_inv).2.1

/-- Witness for `deflate_eof_condition`: at the trivial inflate model the
initial read with a 1-byte buffer returns `0` and the right-hand side holds. -/
theorem deflate_eof_condition_witness :
    ([] : List Nat).length = 0 ↔
      sW.readCursor = sW.outPos ∧
        (mW.step sW.oxide sW.disk sW.backbuf
          (if sW.outPos = capacity then 0 else sW.outPos)).written = 0 :=
  deflate_eof_condition mW sW 1 [] sW mW_wf sW_inv (Nat.le_refl 1) sW_read1

/-- Witness for `deflate_remaining_untouched`: replacing `remaining` by `42`
changes nothing else about the read. -/
theorem deflate_remaining_untouched_witness :
    sW.remaining = sW.remaining ∧
    deflateRead mW ⟨sW.disk, 42, sW.oxide, sW.backbuf, sW.outPos,
        sW.readCursor⟩ 3 =
      some ([], ⟨sW.disk, 42, sW.oxide, sW.backbuf, sW.outPos,
        sW.readCursor⟩) :=
  deflate_remaining_untouched mW sW 3 42 [] sW sW_read3

/-- Witness for `deflate_read_no_panic` at the trivial inflate model and the
initial reader state. -/
theorem deflate_read_no_panic_witness :
    (deflateRead mW sW 3).isSome = true :=
  (deflate_read_no_panic mW sW 3 mW_wf sW_reach).1

end ZipData
